import Mathlib

/-!
Verification development for the Apple heavy-membarrier backend
(src/apple/barrier.c of membarrier-rs).

The C file exposes two functions:

* `is_supported` returns 1 exactly when the build architecture is
  x86-64 or AArch64 (a compile-time check), else 0.

* `flush_process_write_buffers` enumerates the threads of the current
  task with `task_threads`, and for each thread either calls
  `thread_get_register_pointer_values` (when
  `__builtin_available(macOS 10.14, iOS 12, *)` holds) or falls back to
  `thread_get_state` with the architecture-specific state flavor; on an
  architecture with no fallback it returns -2.  After a successful fence
  call it releases the thread handle with `mach_port_deallocate`, and at
  the end it frees the thread list with `vm_deallocate`.  Each kernel
  call is wrapped in `ASSERT_SUCCESS(expr, ret)` which returns `ret`
  from the whole function as soon as `expr` is not `KERN_SUCCESS`.

The embedding below is parameterized over the build/runtime environment
(`Env`: architecture and the availability-check outcome) and a kernel
oracle (`Kernel`: which kernel calls succeed, and the enumerated thread
count).  The function is modelled as returning its C `int` result
together with the ordered trace of kernel calls it performed, so that
resource-release and no-side-effect claims become statements about the
trace.
-/

namespace Barrier

/-- Build architecture, as seen by the preprocessor conditionals
`defined(__x86_64__)` and `defined(__aarch64__)` in barrier.c. -/
inductive Arch where
  | x86_64
  | aarch64
  | other
deriving DecidableEq

/-- Thread-state flavor passed to `thread_get_state` in the fallback
branch: `x86_THREAD_STATE64` on x86-64 builds, `ARM_THREAD_STATE64` on
AArch64 builds. -/
inductive Flavor where
  | x86ThreadState64
  | armThreadState64
deriving DecidableEq

/-- Build/runtime environment of one invocation: the build architecture
and the outcome of the runtime check
`__builtin_available(macOS 10.14, iOS 12, *)`. -/
structure Env where
  arch : Arch
  osAtLeast1014 : Bool
deriving DecidableEq

/-- Kernel oracle for one invocation: whether `task_threads` succeeds,
how many threads it reports, and, per thread index, whether
`thread_get_register_pointer_values`, `thread_get_state` and
`mach_port_deallocate` report `KERN_SUCCESS`; finally whether the
closing `vm_deallocate` succeeds. -/
structure Kernel where
  taskThreadsOk : Bool
  threadCount : Nat
  regPtrOk : Nat → Bool
  getStateOk : Nat → Bool
  portDeallocOk : Nat → Bool
  vmDeallocOk : Bool

/-- One kernel call performed by `flush_process_write_buffers`,
recorded in order in the trace of the run. -/
inductive Event where
  | taskThreads
  | regPtrValues (i : Nat)
  | getState (flavor : Flavor) (i : Nat)
  | portDealloc (i : Nat)
  | vmDealloc
deriving DecidableEq

/-- Embedding of `is_supported` from barrier.c: the preprocessor keeps
`return 1` when `__x86_64__` or `__aarch64__` is defined and `return 0`
otherwise.  The definition reads only the architecture field of the
environment. -/
def is_supported (env : Env) : Int :=
  match env.arch with
  | .x86_64 => 1
  | .aarch64 => 1
  | .other => 0

/-- The fence attempt made on thread `i` inside the loop body of
`flush_process_write_buffers`: on recent OS builds the preferred
`thread_get_register_pointer_values` call, otherwise `thread_get_state`
with the build architecture flavor; `none` models the `#else` branch
that executes `return -2` without making any kernel call. -/
def fenceAttempt (env : Env) (k : Kernel) (i : Nat) : Option (Bool × Event) :=
  if env.osAtLeast1014 then
    some (k.regPtrOk i, Event.regPtrValues i)
  else
    match env.arch with
    | .x86_64 => some (k.getStateOk i, Event.getState Flavor.x86ThreadState64 i)
    | .aarch64 => some (k.getStateOk i, Event.getState Flavor.armThreadState64 i)
    | .other => none

/-- One iteration of the loop body for thread index `i`: make the fence
attempt, then `ASSERT_SUCCESS(syscall_succ, -3)` and
`ASSERT_SUCCESS(mach_port_deallocate(...), -4)`.  The first component
is `some r` when the iteration returns `r` from the whole function,
`none` when it completes and the loop continues; the second component
is the trace of kernel calls the iteration performed. -/
def processThread (env : Env) (k : Kernel) (i : Nat) : Option Int × List Event :=
  match fenceAttempt env k i with
  | none => (some (-2), [])
  | some (succ, ev) =>
    if succ then
      if k.portDeallocOk i then (none, [ev, Event.portDealloc i])
      else (some (-4), [ev, Event.portDealloc i])
    else (some (-3), [ev])

/-- The loop of `flush_process_write_buffers`, processing `rem` thread
indices starting at `i`: result (`some r` for an early return, `none`
when the loop ran to completion) and trace. -/
def flushLoop (env : Env) (k : Kernel) : Nat → Nat → Option Int × List Event
  | _, 0 => (none, [])
  | i, rem + 1 =>
    match processThread env k i with
    | (some r, evs) => (some r, evs)
    | (none, evs) =>
      let rest := flushLoop env k (i + 1) rem
      (rest.1, evs ++ rest.2)

/-- Embedding of `flush_process_write_buffers` from barrier.c: the
returned C `int`, together with the ordered trace of kernel calls the
invocation performed. -/
def flush_process_write_buffers (env : Env) (k : Kernel) : Int × List Event :=
  if k.taskThreadsOk then
    match flushLoop env k 0 k.threadCount with
    | (some r, evs) => (r, Event.taskThreads :: evs)
    | (none, evs) =>
      if k.vmDeallocOk then (0, Event.taskThreads :: (evs ++ [Event.vmDealloc]))
      else (-5, Event.taskThreads :: (evs ++ [Event.vmDealloc]))
  else (-1, [Event.taskThreads])

/-- Whether the environment offers any fence path at all for the loop
body: the preferred path on recent OS builds, or an architecture with a
fallback state accessor. -/
def hasFencePath (env : Env) : Bool :=
  env.osAtLeast1014 ||
    (match env.arch with
     | .x86_64 => true
     | .aarch64 => true
     | .other => false)

/-- Whether the fence call attempted on thread `i` reports success:
`regPtrOk` on recent OS builds, `getStateOk` under a fallback
architecture, and false when no path exists. -/
def fenceOk (env : Env) (k : Kernel) (i : Nat) : Bool :=
  if env.osAtLeast1014 then k.regPtrOk i
  else
    match env.arch with
    | .x86_64 => k.getStateOk i
    | .aarch64 => k.getStateOk i
    | .other => false

/-- Whether the whole loop iteration for thread `i` completes without
an early return: the fence call succeeds and the handle release
succeeds. -/
def stepOk (env : Env) (k : Kernel) (i : Nat) : Bool :=
  fenceOk env k i && k.portDeallocOk i

/-- Whether an event is a fence kernel call against thread `q`. -/
def isFenceEventFor (q : Nat) : Event → Bool
  | .regPtrValues i => i == q
  | .getState _ i => i == q
  | _ => false

def kOneOk : Kernel :=
  { taskThreadsOk := true, threadCount := 1
    regPtrOk := fun _ => true, getStateOk := fun _ => true
    portDeallocOk := fun _ => true, vmDeallocOk := true }

def kFenceFail : Kernel :=
  { taskThreadsOk := true, threadCount := 2
    regPtrOk := fun _ => false, getStateOk := fun _ => false
    portDeallocOk := fun _ => true, vmDeallocOk := true }

def kEnumFail : Kernel :=
  { taskThreadsOk := false, threadCount := 0
    regPtrOk := fun _ => true, getStateOk := fun _ => true
    portDeallocOk := fun _ => true, vmDeallocOk := true }

def envRecentX86 : Env := { arch := Arch.x86_64, osAtLeast1014 := true }

def envOldX86 : Env := { arch := Arch.x86_64, osAtLeast1014 := false }

def envRecentOther : Env := { arch := Arch.other, osAtLeast1014 := true }

def envOldOther : Env := { arch := Arch.other, osAtLeast1014 := false }

theorem fenceAttempt_eq_none_iff (env : Env) (k : Kernel) (i : Nat) :
    fenceAttempt env k i = none ↔ hasFencePath env = false := by
  unfold fenceAttempt hasFencePath
  cases ho : env.osAtLeast1014 <;> cases ha : env.arch <;> simp

theorem fenceAttempt_some_fst (env : Env) (k : Kernel) (i : Nat) (s : Bool) (ev : Event)
    (h : fenceAttempt env k i = some (s, ev)) : s = fenceOk env k i := by
  unfold fenceAttempt at h
  unfold fenceOk
  cases ho : env.osAtLeast1014 <;> cases ha : env.arch <;> simp [ho, ha] at h ⊢ <;>
    exact h.1.symm

theorem fenceAttempt_some_shape (env : Env) (k : Kernel) (i : Nat) (s : Bool) (ev : Event)
    (h : fenceAttempt env k i = some (s, ev)) :
    ev = Event.regPtrValues i ∨ ∃ fl, ev = Event.getState fl i := by
  unfold fenceAttempt at h
  cases ho : env.osAtLeast1014 <;> cases ha : env.arch <;> simp [ho, ha] at h
  case false.x86_64 => exact Or.inr ⟨Flavor.x86ThreadState64, h.2.symm⟩
  case false.aarch64 => exact Or.inr ⟨Flavor.armThreadState64, h.2.symm⟩
  case true.x86_64 => exact Or.inl h.2.symm
  case true.aarch64 => exact Or.inl h.2.symm
  case true.other => exact Or.inl h.2.symm

theorem fenceAttempt_some_index (env : Env) (k : Kernel) (i : Nat) (s : Bool) (ev : Event)
    (h : fenceAttempt env k i = some (s, ev)) (q : Nat)
    (hq : isFenceEventFor q ev = true) : q = i := by
  rcases fenceAttempt_some_shape env k i s ev h with hev | ⟨fl, hev⟩ <;>
    subst hev <;> simp [isFenceEventFor] at hq <;> omega

theorem processThread_of_stepOk (env : Env) (k : Kernel) (i : Nat)
    (h : stepOk env k i = true) :
    ∃ ev, fenceAttempt env k i = some (true, ev) ∧
      processThread env k i = (none, [ev, Event.portDealloc i]) := by
  unfold stepOk fenceOk at h
  rw [Bool.and_eq_true] at h
  obtain ⟨hf, hp⟩ := h
  unfold processThread fenceAttempt
  cases ho : env.osAtLeast1014 <;> cases ha : env.arch <;> simp [ho, ha] at hf ⊢ <;>
    simp [hf, hp]

theorem processThread_fst_none_iff (env : Env) (k : Kernel) (i : Nat) :
    (processThread env k i).1 = none ↔ stepOk env k i = true := by
  unfold processThread stepOk fenceOk fenceAttempt
  cases ho : env.osAtLeast1014 <;> cases ha : env.arch <;>
    cases hr : k.regPtrOk i <;> cases hg : k.getStateOk i <;>
      cases hp : k.portDeallocOk i <;> simp [ho, ha, hr, hg, hp]

theorem processThread_abort_vals (env : Env) (k : Kernel) (i : Nat) (r : Int)
    (h : (processThread env k i).1 = some r) : r = -2 ∨ r = -3 ∨ r = -4 := by
  unfold processThread at h
  cases hfa : fenceAttempt env k i with
  | none => rw [hfa] at h; simp at h; omega
  | some p =>
    obtain ⟨s, ev⟩ := p
    rw [hfa] at h
    cases s <;> cases hp : k.portDeallocOk i <;> simp [hp] at h <;> omega

theorem flushLoop_succ (env : Env) (k : Kernel) (i rem : Nat) :
    flushLoop env k i (rem + 1) =
      match processThread env k i with
      | (some r, evs) => (some r, evs)
      | (none, evs) =>
        let rest := flushLoop env k (i + 1) rem
        (rest.1, evs ++ rest.2) := rfl

theorem flushLoop_fst_none_iff (env : Env) (k : Kernel) (rem : Nat) :
    ∀ i, (flushLoop env k i rem).1 = none ↔
      ∀ j, i ≤ j → j < i + rem → stepOk env k j = true := by
  induction rem with
  | zero =>
    intro i
    constructor
    · intro _ j h1 h2; omega
    · intro _; rfl
  | succ rem ih =>
    intro i
    rw [flushLoop_succ]
    cases hp : processThread env k i with
    | mk o evs =>
      cases o with
      | some r =>
        have hnot : ¬ stepOk env k i = true := by
          intro hs
          have hn := (processThread_fst_none_iff env k i).2 hs
          rw [hp] at hn
          simp at hn
        constructor
        · intro hc; simp at hc
        · intro hall
          exact absurd (hall i (le_refl i) (by omega)) hnot
      | none =>
        have hs : stepOk env k i = true :=
          (processThread_fst_none_iff env k i).1 (by rw [hp])
        simp only []
        rw [ih (i + 1)]
        constructor
        · intro hall j h1 h2
          rcases Nat.eq_or_lt_of_le h1 with heq | hlt
          · rw [← heq]; exact hs
          · exact hall j hlt (by omega)
        · intro hall j h1 h2
          exact hall j (by omega) (by omega)

theorem flushLoop_abort_vals (env : Env) (k : Kernel) (rem : Nat) :
    ∀ i r, (flushLoop env k i rem).1 = some r → r = -2 ∨ r = -3 ∨ r = -4 := by
  induction rem with
  | zero => intro i r h; simp [flushLoop] at h
  | succ rem ih =>
    intro i r h
    rw [flushLoop_succ] at h
    cases hp : processThread env k i with
    | mk o evs =>
      rw [hp] at h
      cases o with
      | some r0 =>
        simp at h
        rw [← h]
        exact processThread_abort_vals env k i r0 (by rw [hp])
      | none =>
        simp only [] at h
        exact ih (i + 1) r h

theorem flushLoop_portDealloc_mem (env : Env) (k : Kernel) (rem : Nat) :
    ∀ i, (flushLoop env k i rem).1 = none →
      ∀ j, i ≤ j → j < i + rem → Event.portDealloc j ∈ (flushLoop env k i rem).2 := by
  induction rem with
  | zero => intro i _ j h1 h2; omega
  | succ rem ih =>
    intro i h j h1 h2
    rw [flushLoop_succ] at h ⊢
    cases hp : processThread env k i with
    | mk o evs =>
      rw [hp] at h
      cases o with
      | some r => simp at h
      | none =>
        simp only [] at h ⊢
        have hs : stepOk env k i = true :=
          (processThread_fst_none_iff env k i).1 (by rw [hp])
        obtain ⟨ev, hfa, hpt⟩ := processThread_of_stepOk env k i hs
        have hevs : evs = [ev, Event.portDealloc i] := by
          rw [hp] at hpt
          exact (Prod.mk.injEq _ _ _ _ ▸ hpt).2
        rcases Nat.eq_or_lt_of_le h1 with heq | hlt
        · rw [← heq, hevs]
          simp
        · exact List.mem_append_right _ (ih (i + 1) h j hlt (by omega))

theorem processThread_ne_neg2 (env : Env) (k : Kernel) (i : Nat)
    (hpath : hasFencePath env = true) : (processThread env k i).1 ≠ some (-2) := by
  intro h
  unfold processThread at h
  cases hfa : fenceAttempt env k i with
  | none =>
    rw [fenceAttempt_eq_none_iff] at hfa
    rw [hfa] at hpath
    simp at hpath
  | some pr =>
    obtain ⟨s, ev⟩ := pr
    rw [hfa] at h
    cases s <;> cases hpd : k.portDeallocOk i <;> simp [hpd] at h

theorem flushLoop_ne_neg2 (env : Env) (k : Kernel) (rem : Nat)
    (hpath : hasFencePath env = true) :
    ∀ i, (flushLoop env k i rem).1 ≠ some (-2) := by
  induction rem with
  | zero => intro i h; simp [flushLoop] at h
  | succ rem ih =>
    intro i h
    rw [flushLoop_succ] at h
    cases hp : processThread env k i with
    | mk o evs =>
      rw [hp] at h
      cases o with
      | some r =>
        simp at h
        exact processThread_ne_neg2 env k i hpath (by rw [hp, h])
      | none =>
        simp only [] at h
        exact ih (i + 1) h

theorem processThread_events_shape (env : Env) (k : Kernel) (i : Nat) (e : Event)
    (he : e ∈ (processThread env k i).2) :
    e = Event.portDealloc i ∨ ∃ s, fenceAttempt env k i = some (s, e) := by
  unfold processThread at he
  cases hfa : fenceAttempt env k i with
  | none => rw [hfa] at he; simp at he
  | some pr =>
    obtain ⟨s, ev⟩ := pr
    rw [hfa] at he
    have hev : e = ev ∨ e = Event.portDealloc i := by
      cases s <;> cases hpd : k.portDeallocOk i <;> simp [hpd] at he <;> tauto
    rcases hev with hev | hev
    · rw [hev]
      exact Or.inr ⟨s, rfl⟩
    · exact Or.inl hev

theorem flushLoop_events_shape (env : Env) (k : Kernel) (rem : Nat) :
    ∀ i e, e ∈ (flushLoop env k i rem).2 →
      (∃ j, e = Event.portDealloc j) ∨ ∃ j s, fenceAttempt env k j = some (s, e) := by
  induction rem with
  | zero => intro i e he; simp [flushLoop] at he
  | succ rem ih =>
    intro i e he
    rw [flushLoop_succ] at he
    cases hp : processThread env k i with
    | mk o evs =>
      rw [hp] at he
      cases o with
      | some r =>
        simp only [] at he
        rcases processThread_events_shape env k i e (by rw [hp]; exact he) with h1 | ⟨s, h2⟩
        · exact Or.inl ⟨i, h1⟩
        · exact Or.inr ⟨i, s, h2⟩
      | none =>
        simp only [] at he
        rcases List.mem_append.1 he with h1 | h2
        · rcases processThread_events_shape env k i e (by rw [hp]; exact h1) with ha | ⟨s, hb⟩
          · exact Or.inl ⟨i, ha⟩
          · exact Or.inr ⟨i, s, hb⟩
        · exact ih (i + 1) e h2

theorem flushLoop_fence_abort (env : Env) (k : Kernel) (p : Nat) :
    ∀ rem i, p < rem →
      (∀ j, i ≤ j → j < i + p → stepOk env k j = true) →
      hasFencePath env = true →
      fenceOk env k (i + p) = false →
      (flushLoop env k i rem).1 = some (-3) ∧
        ∀ q e, e ∈ (flushLoop env k i rem).2 → isFenceEventFor q e = true → q ≤ i + p := by
  induction p with
  | zero =>
    intro rem i hrem hprev hpath hfail
    cases rem with
    | zero => omega
    | succ rem =>
      rw [Nat.add_zero] at hfail
      rw [flushLoop_succ]
      cases hfa : fenceAttempt env k i with
      | none =>
        rw [fenceAttempt_eq_none_iff] at hfa
        rw [hfa] at hpath
        simp at hpath
      | some pr =>
        obtain ⟨s, ev⟩ := pr
        have hs : s = false := by
          rw [fenceAttempt_some_fst env k i s ev hfa, hfail]
        rw [hs] at hfa
        have hpt : processThread env k i = (some (-3), [ev]) := by
          unfold processThread
          rw [hfa]
          simp
        rw [hpt]
        refine ⟨rfl, ?_⟩
        intro q e he hq
        simp at he
        rw [he] at hq
        have := fenceAttempt_some_index env k i false ev hfa q hq
        omega
  | succ p ihp =>
    intro rem i hrem hprev hpath hfail
    cases rem with
    | zero => omega
    | succ rem =>
      have hsi : stepOk env k i = true := hprev i (le_refl i) (by omega)
      obtain ⟨ev, hfa, hpt⟩ := processThread_of_stepOk env k i hsi
      rw [flushLoop_succ, hpt]
      have hfail2 : fenceOk env k (i + 1 + p) = false := by
        rw [show i + 1 + p = i + (p + 1) by omega]
        exact hfail
      have hrec := ihp rem (i + 1) (by omega)
        (fun j hj1 hj2 => hprev j (by omega) (by omega)) hpath hfail2
      refine ⟨hrec.1, ?_⟩
      intro q e he hq
      simp only [List.mem_append, List.mem_cons, List.mem_singleton] at he
      rcases he with (he | he | hfalse) | he
      · rw [he] at hq
        have := fenceAttempt_some_index env k i true ev hfa q hq
        omega
      · rw [he] at hq
        simp [isFenceEventFor] at hq
      · simp at hfalse
      · have := hrec.2 q e he hq
        omega

theorem flush_fst_eq_zero_iff (env : Env) (k : Kernel) :
    (flush_process_write_buffers env k).1 = 0 ↔
      k.taskThreadsOk = true ∧ (flushLoop env k 0 k.threadCount).1 = none ∧
        k.vmDeallocOk = true := by
  unfold flush_process_write_buffers
  cases ht : k.taskThreadsOk with
  | false => simp
  | true =>
    cases hl : flushLoop env k 0 k.threadCount with
    | mk o evs =>
      cases o with
      | some r =>
        have hval := flushLoop_abort_vals env k k.threadCount 0 r (by rw [hl])
        simp only []
        constructor
        · intro hc
          simp at hc
          omega
        · intro hc
          simp at hc
      | none =>
        cases hv : k.vmDeallocOk <;> simp [hl]

/-- C3: is_supported returns 1 exactly when the build architecture is 64-bit
x86 or 64-bit ARM and 0 for every other architecture, and its value is a
function of the architecture field alone, hence independent of the OS
availability outcome and of any mutable state. -/
theorem C3_is_supported_pure_arch (env : Env) :
    is_supported env =
      (if env.arch = Arch.x86_64 ∨ env.arch = Arch.aarch64 then 1 else 0) ∧
    ∀ os2 : Bool,
      is_supported { arch := env.arch, osAtLeast1014 := os2 } = is_supported env := by
  constructor
  · unfold is_supported
    cases env.arch <;> simp
  · intro os2
    unfold is_supported
    rfl

/-- C4: flush_process_write_buffers returns 0 exactly when the thread
enumeration succeeded, the fence call on every enumerated thread succeeded,
the handle release on every enumerated thread succeeded, and the final list
deallocation succeeded; it never reports success after an incomplete run. -/
theorem C4_success_iff_all_steps (env : Env) (k : Kernel) :
    (flush_process_write_buffers env k).1 = 0 ↔
      k.taskThreadsOk = true ∧
      (∀ i, i < k.threadCount → fenceOk env k i = true) ∧
      (∀ i, i < k.threadCount → k.portDeallocOk i = true) ∧
      k.vmDeallocOk = true := by
  rw [flush_fst_eq_zero_iff, flushLoop_fst_none_iff env k k.threadCount 0]
  constructor
  · rintro ⟨h1, h2, h3⟩
    refine ⟨h1, ?_, ?_, h3⟩
    · intro i hi
      have hst := h2 i (Nat.zero_le i) (by omega)
      unfold stepOk at hst
      rw [Bool.and_eq_true] at hst
      exact hst.1
    · intro i hi
      have hst := h2 i (Nat.zero_le i) (by omega)
      unfold stepOk at hst
      rw [Bool.and_eq_true] at hst
      exact hst.2
  · rintro ⟨h1, h2, h3, h4⟩
    refine ⟨h1, ?_, h4⟩
    intro j _ hj
    unfold stepOk
    rw [Bool.and_eq_true]
    exact ⟨h2 j (by omega), h3 j (by omega)⟩

/-- C8: when the kernel rejects the thread-enumeration request, the call
returns -1 at once and the trace holds the enumeration call only: no fence
call, no handle release and no list deallocation was attempted. -/
theorem C8_enumeration_failure (env : Env) (k : Kernel)
    (h : k.taskThreadsOk = false) :
    flush_process_write_buffers env k = (-1, [Event.taskThreads]) := by
  unfold flush_process_write_buffers
  rw [h]
  simp

/-- C8 witness at a concrete environment and kernel oracle. -/
theorem C8_enumeration_failure_witness :
    kEnumFail.taskThreadsOk = false ∧
      flush_process_write_buffers envRecentX86 kEnumFail = (-1, [Event.taskThreads]) :=
  ⟨rfl, C8_enumeration_failure envRecentX86 kEnumFail rfl⟩

/-- C9: the result of every invocation lies in the closed six-value status
set: 0 for success and the five pairwise distinct failure codes -1
(enumeration failed), -2 (architecture unsupported), -3 (per-thread fence
failed), -4 (handle release failed) and -5 (list deallocation failed). -/
theorem C9_status_codes_closed (env : Env) (k : Kernel) :
    (flush_process_write_buffers env k).1 ∈ ([0, -1, -2, -3, -4, -5] : List Int) ∧
      ([0, -1, -2, -3, -4, -5] : List Int).Pairwise (fun a b => a ≠ b) := by
  refine ⟨?_, by decide⟩
  unfold flush_process_write_buffers
  cases ht : k.taskThreadsOk with
  | false => simp
  | true =>
    cases hl : flushLoop env k 0 k.threadCount with
    | mk o evs =>
      cases o with
      | some r =>
        have hv := flushLoop_abort_vals env k k.threadCount 0 r (by rw [hl])
        simp only [List.mem_cons]
        rcases hv with h | h | h <;> simp [h]
      | none => cases hv : k.vmDeallocOk <;> simp

/-- C10: on an OS build where the preferred register-pointer-values path is
available, the architecture check inside the fallback branch is never
reached, so the call never returns -2, whatever the build architecture. -/
theorem C10_recent_os_never_arch_unsupported (env : Env) (k : Kernel)
    (h : env.osAtLeast1014 = true) :
    (flush_process_write_buffers env k).1 ≠ -2 := by
  have hpath : hasFencePath env = true := by
    unfold hasFencePath
    rw [h]
    rfl
  unfold flush_process_write_buffers
  cases ht : k.taskThreadsOk with
  | false => simp
  | true =>
    cases hl : flushLoop env k 0 k.threadCount with
    | mk o evs =>
      cases o with
      | some r =>
        intro hc
        simp at hc
        have h2 := flushLoop_ne_neg2 env k k.threadCount hpath 0
        rw [hl] at h2
        exact h2 (by simp [hc])
      | none => cases hv : k.vmDeallocOk <;> simp

/-- C10 witness: on a recent OS build with an architecture that has no
fallback accessor, the call still does not return -2. -/
theorem C10_recent_os_never_arch_unsupported_witness :
    envRecentOther.osAtLeast1014 = true ∧
      (flush_process_write_buffers envRecentOther kOneOk).1 ≠ -2 :=
  ⟨rfl, C10_recent_os_never_arch_unsupported envRecentOther kOneOk rfl⟩

/-- C1 counterexample: with one enumerated thread whose fence call fails,
the call returns -3 with trace [taskThreads, regPtrValues 0]: the handle of
thread 0 is never released and the thread list is never deallocated on this
failure exit path, so the claim that every handle and the list are released
on every exit path is false. -/
theorem C1_counterexample :
    flush_process_write_buffers envRecentX86 kFenceFail =
      (-3, [Event.taskThreads, Event.regPtrValues 0]) ∧
    Event.portDealloc 0 ∉ (flush_process_write_buffers envRecentX86 kFenceFail).2 ∧
    Event.portDealloc 1 ∉ (flush_process_write_buffers envRecentX86 kFenceFail).2 ∧
    Event.vmDealloc ∉ (flush_process_write_buffers envRecentX86 kFenceFail).2 := by
  decide

/-- C1 amended: on the success exit path, the handle of every enumerated
thread has been released by a successful mach_port_deallocate call, and the
thread list has been deallocated by a successful vm_deallocate call, before
the call returns. -/
theorem C1_success_releases_all (env : Env) (k : Kernel)
    (h : (flush_process_write_buffers env k).1 = 0) :
    (∀ i, i < k.threadCount →
        Event.portDealloc i ∈ (flush_process_write_buffers env k).2 ∧
          k.portDeallocOk i = true) ∧
      Event.vmDealloc ∈ (flush_process_write_buffers env k).2 ∧
        k.vmDeallocOk = true := by
  obtain ⟨ht, hloop, hv⟩ := (flush_fst_eq_zero_iff env k).1 h
  have hmem := flushLoop_portDealloc_mem env k k.threadCount 0 hloop
  have hok := (flushLoop_fst_none_iff env k k.threadCount 0).1 hloop
  have htrace : (flush_process_write_buffers env k).2 =
      Event.taskThreads :: ((flushLoop env k 0 k.threadCount).2 ++ [Event.vmDealloc]) := by
    unfold flush_process_write_buffers
    rw [ht]
    cases hl : flushLoop env k 0 k.threadCount with
    | mk o evs =>
      rw [hl] at hloop
      simp only [] at hloop
      rw [hloop]
      rw [hv]
      simp
  refine ⟨?_, ?_, hv⟩
  · intro i hi
    constructor
    · rw [htrace]
      exact List.mem_cons_of_mem _ (List.mem_append_left _ (hmem i (Nat.zero_le i) (by omega)))
    · have hst := hok i (Nat.zero_le i) (by omega)
      unfold stepOk at hst
      rw [Bool.and_eq_true] at hst
      exact hst.2
  · rw [htrace]
    exact List.mem_cons_of_mem _ (List.mem_append_right _ (by simp))

/-- C1 amended witness at a concrete all-success run with one thread. -/
theorem C1_success_releases_all_witness :
    (flush_process_write_buffers envRecentX86 kOneOk).1 = 0 ∧
      Event.vmDealloc ∈ (flush_process_write_buffers envRecentX86 kOneOk).2 :=
  ⟨by decide, (C1_success_releases_all envRecentX86 kOneOk (by decide)).2.1⟩

/-- C5: if every thread before index p completed its loop iteration, a fence
path exists for the environment, and the fence call attempted on thread p
reports failure, then the call returns -3 and the trace holds no fence call
against any thread after p: the operation aborts at p without attempting the
fence on the remaining enumerated threads. -/
theorem C5_fence_failure_aborts (env : Env) (k : Kernel) (p : Nat)
    (ht : k.taskThreadsOk = true) (hp : p < k.threadCount)
    (hprev : ∀ j, j < p → stepOk env k j = true)
    (hpath : hasFencePath env = true)
    (hfail : fenceOk env k p = false) :
    (flush_process_write_buffers env k).1 = -3 ∧
      ∀ q e, p < q → e ∈ (flush_process_write_buffers env k).2 →
        isFenceEventFor q e = false := by
  have habort := flushLoop_fence_abort env k p k.threadCount 0 hp
    (fun j h1 h2 => hprev j (by omega)) hpath (by rw [Nat.zero_add]; exact hfail)
  unfold flush_process_write_buffers
  rw [ht]
  cases hl : flushLoop env k 0 k.threadCount with
  | mk o evs =>
    rw [hl] at habort
    obtain ⟨h1, h2⟩ := habort
    simp only [] at h1
    rw [h1]
    refine ⟨by simp, ?_⟩
    intro q e hq he
    simp only [] at he
    rcases List.mem_cons.1 he with he | he
    · rw [he]
      rfl
    · by_contra hc
      have hc2 : isFenceEventFor q e = true := by
        cases hval : isFenceEventFor q e
        · exact absurd hval hc
        · rfl
      have := h2 q e he hc2
      omega

/-- C5 witness: fence failure on the first of two threads returns -3. -/
theorem C5_fence_failure_aborts_witness :
    fenceOk envRecentX86 kFenceFail 0 = false ∧
      (flush_process_write_buffers envRecentX86 kFenceFail).1 = -3 :=
  ⟨by decide,
    (C5_fence_failure_aborts envRecentX86 kFenceFail 0 rfl (by decide)
      (fun j hj => absurd hj (Nat.not_lt_zero j)) rfl (by decide)).1⟩

/-- C6 counterexample: on an architecture with no known fence path but a
recent OS build, the preferred path is taken for every thread and the call
returns 0, not -2, after performing enumeration and fence work. -/
theorem C6_counterexample :
    (flush_process_write_buffers envRecentOther kOneOk).1 = 0 ∧
      Event.regPtrValues 0 ∈ (flush_process_write_buffers envRecentOther kOneOk).2 := by
  decide

/-- C6 amended: on an OS build too old for the preferred path, on an
architecture with no fallback accessor, when the enumeration succeeds and
reports at least one thread, the call returns -2 with trace [taskThreads]:
the thread enumeration has already happened, but no fence call, no handle
release and no list deallocation is performed. -/
theorem C6_arch_unsupported_old_os (env : Env) (k : Kernel)
    (harch : env.arch = Arch.other) (hos : env.osAtLeast1014 = false)
    (ht : k.taskThreadsOk = true) (hn : 0 < k.threadCount) :
    flush_process_write_buffers env k = (-2, [Event.taskThreads]) := by
  unfold flush_process_write_buffers
  rw [ht]
  obtain ⟨m, hm⟩ : ∃ m, k.threadCount = m + 1 := ⟨k.threadCount - 1, by omega⟩
  rw [hm, flushLoop_succ]
  have hpt : processThread env k 0 = (some (-2), []) := by
    unfold processThread fenceAttempt
    rw [hos, harch]
    simp
  rw [hpt]
  simp

/-- C6 amended witness at a concrete old-OS unsupported-architecture run. -/
theorem C6_arch_unsupported_old_os_witness :
    0 < kOneOk.threadCount ∧
      flush_process_write_buffers envOldOther kOneOk = (-2, [Event.taskThreads]) :=
  ⟨by decide, C6_arch_unsupported_old_os envOldOther kOneOk rfl rfl rfl (by decide)⟩

theorem flush_events_shape (env : Env) (k : Kernel) (e : Event)
    (he : e ∈ (flush_process_write_buffers env k).2) :
    e = Event.taskThreads ∨ e = Event.vmDealloc ∨
      e ∈ (flushLoop env k 0 k.threadCount).2 := by
  unfold flush_process_write_buffers at he
  cases ht : k.taskThreadsOk with
  | false =>
    rw [ht] at he
    simp at he
    exact Or.inl he
  | true =>
    rw [ht] at he
    cases hl : flushLoop env k 0 k.threadCount with
    | mk o evs =>
      rw [hl] at he
      cases o with
      | some r =>
        simp only [] at he
        rcases List.mem_cons.1 he with h1 | h1
        · exact Or.inl h1
        · exact Or.inr (Or.inr h1)
      | none =>
        have he2 : e ∈ Event.taskThreads :: (evs ++ [Event.vmDealloc]) := by
          cases hv : k.vmDeallocOk <;> rw [hv] at he <;> simpa using he
        rcases List.mem_cons.1 he2 with h1 | h1
        · exact Or.inl h1
        · rcases List.mem_append.1 h1 with h2 | h2
          · exact Or.inr (Or.inr h2)
          · exact Or.inr (Or.inl (by simpa using h2))

/-- C7: the fence strategy for each thread is selected by the runtime OS
check: on recent builds the fence attempt on thread i is the
register-pointer-values call and the trace holds no thread_get_state call;
on older builds the attempt is thread_get_state with the single fixed
flavor of the build architecture, x86_THREAD_STATE64 on x86-64 and
ARM_THREAD_STATE64 on AArch64, and the trace holds no
register-pointer-values call and no call with the other flavor. -/
theorem C7_strategy_selection (env : Env) (k : Kernel) :
    (env.osAtLeast1014 = true →
      (∀ i, fenceAttempt env k i = some (k.regPtrOk i, Event.regPtrValues i)) ∧
      ∀ e, e ∈ (flush_process_write_buffers env k).2 →
        ∀ fl j, e ≠ Event.getState fl j) ∧
    (env.osAtLeast1014 = false → env.arch = Arch.x86_64 →
      (∀ i, fenceAttempt env k i =
        some (k.getStateOk i, Event.getState Flavor.x86ThreadState64 i)) ∧
      ∀ e, e ∈ (flush_process_write_buffers env k).2 →
        ∀ j, e ≠ Event.regPtrValues j ∧
          e ≠ Event.getState Flavor.armThreadState64 j) ∧
    (env.osAtLeast1014 = false → env.arch = Arch.aarch64 →
      (∀ i, fenceAttempt env k i =
        some (k.getStateOk i, Event.getState Flavor.armThreadState64 i)) ∧
      ∀ e, e ∈ (flush_process_write_buffers env k).2 →
        ∀ j, e ≠ Event.regPtrValues j ∧
          e ≠ Event.getState Flavor.x86ThreadState64 j) := by
  refine ⟨fun hos => ⟨?_, ?_⟩, fun hos harch => ⟨?_, ?_⟩, fun hos harch => ⟨?_, ?_⟩⟩
  · intro i
    unfold fenceAttempt
    rw [hos]
    simp
  · intro e he fl j
    rcases flush_events_shape env k e he with h | h | h
    · rw [h]; simp
    · rw [h]; simp
    · rcases flushLoop_events_shape env k k.threadCount 0 e h with ⟨j2, hj⟩ | ⟨j2, s, hj⟩
      · rw [hj]; simp
      · unfold fenceAttempt at hj
        rw [hos] at hj
        simp at hj
        rw [← hj.2]
        simp
  · intro i
    unfold fenceAttempt
    rw [hos, harch]
    simp
  · intro e he j
    rcases flush_events_shape env k e he with h | h | h
    · rw [h]; simp
    · rw [h]; simp
    · rcases flushLoop_events_shape env k k.threadCount 0 e h with ⟨j2, hj⟩ | ⟨j2, s, hj⟩
      · rw [hj]; simp
      · unfold fenceAttempt at hj
        rw [hos, harch] at hj
        simp at hj
        rw [← hj.2]
        simp
  · intro i
    unfold fenceAttempt
    rw [hos, harch]
    simp
  · intro e he j
    rcases flush_events_shape env k e he with h | h | h
    · rw [h]; simp
    · rw [h]; simp
    · rcases flushLoop_events_shape env k k.threadCount 0 e h with ⟨j2, hj⟩ | ⟨j2, s, hj⟩
      · rw [hj]; simp
      · unfold fenceAttempt at hj
        rw [hos, harch] at hj
        simp at hj
        rw [← hj.2]
        simp

/-- C7 witness: on an old OS build with an x86-64 architecture the attempt
on thread 0 is thread_get_state with the x86 64-bit flavor. -/
theorem C7_strategy_selection_witness :
    fenceAttempt envOldX86 kOneOk 0 =
      some (kOneOk.getStateOk 0, Event.getState Flavor.x86ThreadState64 0) :=
  ((C7_strategy_selection envOldX86 kOneOk).2.1 rfl rfl).1 0

end Barrier
